import Mathlib

/-
Verification of the CSV email-validator service (Go sources: email_validator.go,
csv_processor.go, models.go, handlers.go) against its natural-language
specification.  Strings are modelled as lists of characters; the pieces of the
Go standard library the program leans on (strings.TrimSpace, regexp matching of
the fixed email pattern, encoding/csv reading and writing) are embedded
explicitly below next to the code they serve.
-/

set_option maxHeartbeats 1000000

abbrev Str := List Char

/-- goIsSpace embeds Go's unicode.IsSpace, used by strings.TrimSpace: the
Latin-1 white space characters together with the White_Space code points
outside Latin-1. -/
def goIsSpace (c : Char) : Bool :=
  c == '\t' || c == '\n' || c == Char.ofNat 11 || c == Char.ofNat 12 ||
  c == '\r' || c == ' ' || c == Char.ofNat 0x85 || c == Char.ofNat 0xA0 ||
  c == Char.ofNat 0x1680 ||
  (Char.ofNat 0x2000 ≤ c && c ≤ Char.ofNat 0x200A) ||
  c == Char.ofNat 0x2028 || c == Char.ofNat 0x2029 ||
  c == Char.ofNat 0x202F || c == Char.ofNat 0x205F || c == Char.ofNat 0x3000

/-- trimSpace embeds strings.TrimSpace: remove leading and trailing white
space. -/
def trimSpace (s : Str) : Str :=
  ((s.dropWhile goIsSpace).reverse.dropWhile goIsSpace).reverse

/-- isAlnumCh is the character class occurring as a-zA-Z0-9 in the email
pattern of NewEmailValidator. -/
def isAlnumCh (c : Char) : Bool :=
  (('a' ≤ c) && (c ≤ 'z')) || (('A' ≤ c) && (c ≤ 'Z')) ||
  (('0' ≤ c) && (c ≤ '9'))

/-- isAlphaCh is the character class a-zA-Z of the pattern's final suffix. -/
def isAlphaCh (c : Char) : Bool :=
  (('a' ≤ c) && (c ≤ 'z')) || (('A' ≤ c) && (c ≤ 'Z'))

/-- isLocalCh is the interior character class of the local part of the email
pattern: a-zA-Z0-9._%+- . -/
def isLocalCh (c : Char) : Bool :=
  isAlnumCh c || c == '.' || c == '_' || c == '%' || c == '+' || c == '-'

/-- isDomCh is the interior character class of the domain part of the email
pattern: a-zA-Z0-9.- . -/
def isDomCh (c : Char) : Bool :=
  isAlnumCh c || c == '.' || c == '-'

/-- Regex is the abstract syntax of the regular expressions needed to write
down the pattern compiled by NewEmailValidator; cls p is a one-character
class. -/
inductive Regex where
  | eps : Regex
  | cls (p : Char → Bool) : Regex
  | cat (a b : Regex) : Regex
  | alt (a b : Regex) : Regex
  | star (a : Regex) : Regex

/-- RMatch r s means the whole character list s belongs to the language of the
regular expression r (an anchored match, as with a pattern delimited by the
anchors in the Go source). -/
inductive RMatch : Regex → Str → Prop where
  | eps : RMatch .eps []
  | cls {p : Char → Bool} {c : Char} : p c = true → RMatch (.cls p) [c]
  | cat {a b : Regex} {u v : Str} :
      RMatch a u → RMatch b v → RMatch (.cat a b) (u ++ v)
  | altL {a b : Regex} {s : Str} : RMatch a s → RMatch (.alt a b) s
  | altR {a b : Regex} {s : Str} : RMatch b s → RMatch (.alt a b) s
  | starNil {a : Regex} : RMatch (.star a) []
  | starCat {a : Regex} {u v : Str} :
      RMatch a u → RMatch (.star a) v → RMatch (.star a) (u ++ v)

/-- chrR c is the regular expression matching exactly the one-character list
holding c. -/
def chrR (c : Char) : Regex := .cls (fun d => d == c)

/-- optR r matches the empty list or whatever r matches, written r? in the
pattern. -/
def optR (r : Regex) : Regex := .alt .eps r

/-- boundedR A B transliterates the sub-pattern A(B*A)? used twice in the email
pattern: a nonempty run over the class B whose first and last characters lie in
the class A. -/
def boundedR (A B : Char → Bool) : Regex :=
  .cat (.cls A) (optR (.cat (.star (.cls B)) (.cls A)))

/-- alpha2plusR transliterates the final a-zA-Z repeated at least twice. -/
def alpha2plusR : Regex :=
  .cat (.cls isAlphaCh) (.cat (.cls isAlphaCh) (.star (.cls isAlphaCh)))

/-- emailRegex transliterates the pattern compiled in NewEmailValidator, read
left to right:  local part, the at sign, the domain, a literal dot, and a
suffix of at least two letters. -/
def emailRegex : Regex :=
  .cat (boundedR isAlnumCh isLocalCh)
    (.cat (chrR '@')
      (.cat (boundedR isAlnumCh isDomCh)
        (.cat (chrR '.') alpha2plusR)))

/-- segRest A B decides the sub-pattern B*A: all characters lie in B except
that the final one must lie in A. -/
def segRest (A B : Char → Bool) : Str → Bool
  | [] => false
  | [c] => A c
  | c :: cs => B c && segRest A B cs

/-- seg A B decides the sub-pattern A(B*A)?: the first character lies in A and
the remainder, when nonempty, satisfies segRest. -/
def seg (A B : Char → Bool) : Str → Bool
  | [] => false
  | [c] => A c
  | c :: cs => A c && segRest A B cs

/-- tailAlpha decides the final suffix of the pattern: at least two characters,
all letters. -/
def tailAlpha (s : Str) : Bool :=
  decide (2 ≤ s.length) && s.all isAlphaCh

/-- splitScan c P Q s decides whether s can be split as u ++ c :: v with P
holding of u and Q of v, by scanning every position of s. -/
def splitScan (c : Char) (P Q : Str → Bool) (s : Str) : Bool :=
  (List.range s.length).any fun i =>
    (s.getD i ' ' == c) && P (s.take i) && Q (s.drop (i + 1))

/-- domainMatch decides the part of the email pattern after the at sign. -/
def domainMatch : Str → Bool :=
  splitScan '.' (seg isAlnumCh isDomCh) tailAlpha

/-- emailCore decides an anchored match of the whole email pattern; the
equivalence with the RMatch semantics of emailRegex is proved below. -/
def emailCore : Str → Bool :=
  splitScan '@' (seg isAlnumCh isLocalCh) domainMatch

/-- IsValidEmail embeds EmailValidator.IsValidEmail: trim surrounding white
space, reject the empty result, otherwise match the email pattern. -/
def IsValidEmail (email : Str) : Bool :=
  let e := trimSpace email
  if e.isEmpty then false else emailCore e

/-- HasValidEmail embeds EmailValidator.HasValidEmail: some field of the row is
a valid email, tested in field order. -/
def HasValidEmail (fields : List Str) : Bool :=
  fields.any IsValidEmail

/-- hasEmailHeader is the literal column header appended by ProcessCSV. -/
def hasEmailHeader : Str := "has_email".toList

/-- boolStr embeds the formatting of a boolean by the %t verb of fmt.Sprintf. -/
def boolStr : Bool → Str
  | true => "true".toList
  | false => "false".toList

/-- isBlankRow embeds the skip condition of ProcessCSV: no fields, or exactly
one field that trims to the empty string. -/
def isBlankRow (r : List Str) : Bool :=
  r.isEmpty || (r.length == 1 && (trimSpace (r.headD [])).isEmpty)

/-- processRowsAux embeds the row loop of ProcessCSV on an already-parsed
sequence of records, with n the running rowNum counter: blank rows are
skipped, the row written at rowNum 0 receives the literal header column, and
every later written row receives the textual detection result. -/
def processRowsAux : List (List Str) → Nat → List (List Str)
  | [], _ => []
  | r :: rs, n =>
    if isBlankRow r then processRowsAux rs n
    else if n = 0 then (r ++ [hasEmailHeader]) :: processRowsAux rs 1
    else (r ++ [boolStr (HasValidEmail r)]) :: processRowsAux rs (n + 1)

/-- processRows is the row loop of ProcessCSV started at rowNum 0, on the
records the CSV reader would deliver. -/
def processRows (rows : List (List Str)) : List (List Str) :=
  processRowsAux rows 0

/-- specRowTransform restates the specification's description of the Row
Transformer in one step: keep exactly the non-blank rows in order, append the
literal header to the first and the detection result to the rest.  It is
compared with processRows, the translation of the code. -/
def specRowTransform (rows : List (List Str)) : List (List Str) :=
  match rows.filter (fun r => !isBlankRow r) with
  | [] => []
  | h :: ds => (h ++ [hasEmailHeader]) ::
      ds.map (fun r => r ++ [boolStr (HasValidEmail r)])

/-- CSVErr lists the read errors of the embedded encoding/csv reader that the
concrete inputs below can produce. -/
inductive CSVErr where
  | bareQuote : CSVErr
  | quoteErr : CSVErr
  | fieldCount (rowNum : Nat) : CSVErr
deriving DecidableEq

/-- ProcessCSVRecordsAux embeds the read-and-transform loop of ProcessCSV
including the field-count enforcement that Go's encoding/csv reader performs
on every delivered record (the reader is not part of this repository; its
FieldsPerRecord behaviour is modelled from its documentation: the first
record fixes the expected count, any later record with a different count is
an error).  The fpr argument is the reader's FieldsPerRecord state and n the
rowNum counter used in the error message of ProcessCSV. -/
def ProcessCSVRecordsAux : List (List Str) → Nat → Option Nat →
    Except CSVErr (List (List Str))
  | [], _, _ => .ok []
  | r :: rs, n, fpr =>
    if r.length = fpr.getD r.length then
      if isBlankRow r then ProcessCSVRecordsAux rs n (some (fpr.getD r.length))
      else if n = 0 then
        (ProcessCSVRecordsAux rs 1 (some (fpr.getD r.length))).map
          (fun out => (r ++ [hasEmailHeader]) :: out)
      else
        (ProcessCSVRecordsAux rs (n + 1) (some (fpr.getD r.length))).map
          (fun out => (r ++ [boolStr (HasValidEmail r)]) :: out)
    else .error (.fieldCount n)

/-- ProcessCSVRecords runs the loop of ProcessCSV on the records delivered by
the reader, with the reader's field-count state initially unset. -/
def ProcessCSVRecords (recs : List (List Str)) : Except CSVErr (List (List Str)) :=
  ProcessCSVRecordsAux recs 0 none

/-- isQuoteSpecial collects the characters that force quoting in Go's
encoding/csv writer with the default comma. -/
def isQuoteSpecial (c : Char) : Bool :=
  c == ',' || c == '"' || c == '\r' || c == '\n'

/-- fieldNeedsQuotes embeds fieldNeedsQuotes of Go's encoding/csv writer (the
writer is not part of this repository; modelled from its source behaviour with
the default comma and UseCRLF false). -/
def fieldNeedsQuotes (f : Str) : Bool :=
  if f.isEmpty then false
  else if f = ['\\', '.'] then true
  else f.any isQuoteSpecial || goIsSpace (f.headD ' ')

/-- escQuote doubles a double quote inside a quoted field; with UseCRLF false
every other character is written unchanged. -/
def escQuote (c : Char) : Str :=
  if c = '"' then ['"', '"'] else [c]

/-- encodeField embeds the per-field output of the encoding/csv writer:
minimal quoting. -/
def encodeField (f : Str) : Str :=
  if fieldNeedsQuotes f then '"' :: (f.flatMap escQuote) ++ ['"'] else f

/-- encodeRecord embeds Writer.Write for one record: fields joined by commas,
terminated by a newline. -/
def encodeRecord (r : List Str) : Str :=
  (List.intercalate [','] (r.map encodeField)) ++ ['\n']

/-- encodeCSV is the byte content the writer produces for a record sequence. -/
def encodeCSV (rs : List (List Str)) : Str :=
  (rs.map encodeRecord).flatten

/-- lengthNL embeds lengthNL of the encoding/csv reader: the length of the
trailing newline of a line. -/
def lengthNL (l : Str) : Nat :=
  match l.getLast? with
  | some '\n' => 1
  | _ => 0

/-- splitLine cuts the first line (terminator included) off the input. -/
def splitLine : Str → Str × Str
  | [] => ([], [])
  | c :: cs =>
    if c = '\n' then (['\n'], cs)
    else
      let p := splitLine cs
      (c :: p.1, p.2)

/-- normNL embeds the readLine normalisation of the encoding/csv reader: a
trailing carriage-return-newline becomes a bare newline. -/
def normNL (l : Str) : Str :=
  match l.reverse with
  | '\n' :: '\r' :: t => t.reverse ++ ['\n']
  | _ => l

mutual

/-- parseRec embeds the field loop of readRecord in the encoding/csv reader
for the current line, in the non-quoted state; acc holds the fields already
parsed and inp the input beyond the current line.  The first argument is fuel
bounding the recursion depth, always sufficient for the concrete inputs
evaluated below. -/
def parseRec : Nat → Str → Str → List Str → Except CSVErr (List Str × Str)
  | 0, _, _, _ => .error .quoteErr
  | fuel + 1, line, inp, acc =>
    match line with
    | '"' :: lrest => parseQuoted fuel lrest inp [] acc
    | _ =>
      match line.findIdx? (fun c => c == ',') with
      | some i =>
        let field := line.take i
        if field.any (fun c => c == '"') then .error .bareQuote
        else parseRec fuel (line.drop (i + 1)) inp (acc ++ [field])
      | none =>
        let field := line.take (line.length - lengthNL line)
        if field.any (fun c => c == '"') then .error .bareQuote
        else .ok (acc ++ [field], inp)

/-- parseQuoted embeds the quoted-field state of readRecord: scan for the
closing quote, handling doubled quotes, a following comma, the end of the
record, and fields continuing on the next line; with LazyQuotes false anything
else is a quote error. -/
def parseQuoted : Nat → Str → Str → Str → List Str →
    Except CSVErr (List Str × Str)
  | 0, _, _, _, _ => .error .quoteErr
  | fuel + 1, line, inp, fld, acc =>
    match line.findIdx? (fun c => c == '"') with
    | some i =>
      let fld := fld ++ line.take i
      let after := line.drop (i + 1)
      match after with
      | '"' :: t => parseQuoted fuel t inp (fld ++ ['"']) acc
      | ',' :: t => parseRec fuel t inp (acc ++ [fld])
      | _ =>
        if after.length = lengthNL after then .ok (acc ++ [fld], inp)
        else .error .quoteErr
    | none =>
      match line with
      | [] => .error .quoteErr
      | _ =>
        match inp with
        | [] => .error .quoteErr
        | _ =>
          let p := splitLine inp
          parseQuoted fuel (normNL p.1) p.2 (fld ++ line) acc

end

/-- readRec embeds one call of Reader.Read without the field-count check
(performed in ProcessCSVRecordsAux): skip blank lines, then parse one record;
none signals end of input. -/
def readRec : Nat → Str → Except CSVErr (Option (List Str × Str))
  | 0, _ => .error .quoteErr
  | fuel + 1, inp =>
    match inp with
    | [] => .ok none
    | _ =>
      let p := splitLine inp
      let line := normNL p.1
      if line.length = lengthNL line then readRec fuel p.2
      else (parseRec fuel line p.2 []).map some

/-- readAllRecs reads records until end of input. -/
def readAllRecs : Nat → Str → Except CSVErr (List (List Str))
  | 0, _ => .error .quoteErr
  | fuel + 1, inp =>
    match readRec fuel inp with
    | .error e => .error e
    | .ok none => .ok []
    | .ok (some (rec, inp')) => (readAllRecs fuel inp').map (fun rs => rec :: rs)

/-- readCSVBytes lexes a whole input into records the way the encoding/csv
reader delivers them, blank lines skipped. -/
def readCSVBytes (s : Str) : Except CSVErr (List (List Str)) :=
  readAllRecs (s.length + 2) s

instance {ε α : Type} [DecidableEq ε] [DecidableEq α] : DecidableEq (Except ε α) :=
  fun a b =>
    match a, b with
    | .ok x, .ok y =>
      if h : x = y then .isTrue (by rw [h]) else .isFalse (by simp [h])
    | .error x, .error y =>
      if h : x = y then .isTrue (by rw [h]) else .isFalse (by simp [h])
    | .ok _, .error _ => .isFalse (by simp)
    | .error _, .ok _ => .isFalse (by simp)

/-- ProcessCSVBytes composes the embedded reader, the transformation loop and
the embedded writer: the byte-level behaviour of ProcessCSV on an input file's
content (on error the Go code leaves a partial output file behind and reports
the error; only the error is modelled here). -/
def ProcessCSVBytes (input : Str) : Except CSVErr Str :=
  match readCSVBytes input with
  | .error e => .error e
  | .ok recs => (ProcessCSVRecords recs).map encodeCSV

/-- JobStatus embeds the three job states of models.go. -/
inductive JobStatus where
  | processing : JobStatus
  | completed : JobStatus
  | failed : JobStatus
deriving DecidableEq

/-- ProcessingJob embeds the ProcessingJob struct of models.go; time.Time is
modelled as a number and the two optional strings as possibly empty lists. -/
structure ProcessingJob where
  id : Str
  status : JobStatus
  createdAt : Nat
  filePath : Str
  error : Str
deriving DecidableEq

/-- JobMap models the Go map held by JobStore as an association list keyed by
the job identifier. -/
abbrev JobMap := List (Str × ProcessingJob)

/-- lookupJob models a Go map read: the record stored under id, if any. -/
def lookupJob (m : JobMap) (id : Str) : Option ProcessingJob :=
  (m.find? (fun p => p.1 == id)).map (fun p => p.2)

/-- newJob is the record CreateJob builds: status processing, no output path,
no error message. -/
def newJob (id : Str) (now : Nat) : ProcessingJob :=
  { id := id, status := .processing, createdAt := now,
    filePath := [], error := [] }

/-- insertJob models Go map assignment: replace the record under id when
present, otherwise add it. -/
def insertJob (m : JobMap) (id : Str) (j : ProcessingJob) : JobMap :=
  if (m.find? (fun p => p.1 == id)).isSome then
    m.map (fun p => if p.1 == id then (p.1, j) else p)
  else m ++ [(id, j)]

/-- CreateJob embeds JobStore.CreateJob: store a fresh processing record under
id (silently replacing any record already there) and return it. -/
def CreateJob (m : JobMap) (id : Str) (now : Nat) : JobMap × ProcessingJob :=
  (insertJob m id (newJob id now), newJob id now)

/-- GetJob embeds JobStore.GetJob: the record under id together with the
presence flag. -/
def GetJob (m : JobMap) (id : Str) : Option ProcessingJob × Bool :=
  (lookupJob m id, (lookupJob m id).isSome)

/-- applyUpdate embeds the body of UpdateJobStatus on one record: status is
overwritten unconditionally, the file path and error message only when the
supplied value is nonempty. -/
def applyUpdate (j : ProcessingJob) (status : JobStatus)
    (filePath errorMsg : Str) : ProcessingJob :=
  { j with
    status := status,
    filePath := if filePath.isEmpty then j.filePath else filePath,
    error := if errorMsg.isEmpty then j.error else errorMsg }

/-- UpdateJobStatus embeds JobStore.UpdateJobStatus: when a record exists under
id it is updated via applyUpdate, otherwise nothing happens. -/
def UpdateJobStatus (m : JobMap) (id : Str) (status : JobStatus)
    (filePath errorMsg : Str) : JobMap :=
  if (lookupJob m id).isSome then
    m.map (fun p =>
      if p.1 == id then (p.1, applyUpdate p.2 status filePath errorMsg) else p)
  else m

/-- updWriteStatus is the state of the record after the first assignment in the
body of UpdateJobStatus (job.Status is set) and before the later field
assignments; the record is shared by pointer with the callers of GetJob, so
this intermediate state is what such a caller can observe during a concurrent
update. -/
def updWriteStatus (j : ProcessingJob) (status : JobStatus) : ProcessingJob :=
  { j with status := status }

/-- GetProcessedFilePath embeds CSVProcessor.GetProcessedFilePath. -/
def GetProcessedFilePath (jobID : Str) : Str :=
  "uploads/processed_".toList ++ jobID ++ ".csv".toList

/-- csvErrMsg renders a read error as text standing in for the formatted Go
error chain wrapped by ProcessCSV (the exact wording of the wrapped chain is
I/O formatting; what matters to the job record is that it is nonempty). -/
def csvErrMsg : CSVErr → Str
  | .bareQuote => "bare \" in non-quoted-field".toList
  | .quoteErr => "extraneous or missing \" in quoted-field".toList
  | .fieldCount n =>
      "failed to read CSV row ".toList ++ Nat.toDigits 10 n ++
      ": wrong number of fields".toList

/-- processFileAsync embeds the background worker of handlers.go after the
upload has been stored: saveErr carries a failure of SaveUploadedFile (an I/O
outcome supplied as a parameter), after which the worker either records the
processing failure or completes the job with the processed file location. -/
def processFileAsync (m : JobMap) (jobID : Str) (saveErr : Option Str)
    (recs : List (List Str)) : JobMap :=
  match saveErr with
  | some e =>
    UpdateJobStatus m jobID .failed []
      ("Failed to save uploaded file: ".toList ++ e)
  | none =>
    match ProcessCSVRecords recs with
    | .error e =>
      UpdateJobStatus m jobID .failed []
        ("Failed to process CSV: ".toList ++ csvErrMsg e)
    | .ok _ =>
      UpdateJobStatus m jobID .completed (GetProcessedFilePath jobID) []

/-- WorkerReachable id j holds of every record state the specified lifecycle
can produce for a job: created in the processing state by CreateJob, then
mutated at most once by the background worker, either to failed with the
worker's nonempty error text, or to completed with the processed file
location. -/
inductive WorkerReachable (id : Str) : ProcessingJob → Prop where
  | created (now : Nat) : WorkerReachable id (newJob id now)
  | saveFailed (j : ProcessingJob) (emsg : Str) :
      WorkerReachable id j → j.status = .processing →
      WorkerReachable id
        (applyUpdate j .failed []
          ("Failed to save uploaded file: ".toList ++ emsg))
  | csvFailed (j : ProcessingJob) (e : CSVErr) :
      WorkerReachable id j → j.status = .processing →
      WorkerReachable id
        (applyUpdate j .failed []
          ("Failed to process CSV: ".toList ++ csvErrMsg e))
  | completedStep (j : ProcessingJob) :
      WorkerReachable id j → j.status = .processing →
      WorkerReachable id
        (applyUpdate j .completed (GetProcessedFilePath id) [])

example : IsValidEmail ("test@example.com".toList) = true := by decide
example : IsValidEmail ("test..test@example.com".toList) = true := by decide
example : IsValidEmail ("test@example.c".toList) = false := by decide
example : IsValidEmail ("test@@example.com".toList) = false := by decide
example : IsValidEmail ("  test@example.com  ".toList) = true := by decide
example : IsValidEmail (".test@example.com".toList) = false := by decide
example : IsValidEmail ("bob@invalid-email".toList) = false := by decide
example : IsValidEmail ("test@example.museum".toList) = true := by decide
example : IsValidEmail ("Test@Example.Com".toList) = true := by decide
example : IsValidEmail ("test @example.com".toList) = false := by decide

example : readCSVBytes ("name,email\r\nJohn,john@example.com\r\n".toList) =
    .ok [["name".toList, "email".toList],
         ["John".toList, "john@example.com".toList]] := by decide
example : ProcessCSVBytes ("name,email\nJohn,john@example.com".toList) =
    .ok ("name,email,has_email\nJohn,john@example.com,true\n".toList) := by decide
example : ProcessCSVBytes ("name,email\nBob,bob@invalid-email".toList) =
    .ok ("name,email,has_email\nBob,bob@invalid-email,false\n".toList) := by decide
example : ProcessCSVBytes ("a,b\nc,d\n\ne,f\n".toList) =
    .ok ("a,b,has_email\nc,d,false\ne,f,false\n".toList) := by decide
example : ProcessCSVBytes ([]) = .ok ([]) := by decide
example : ProcessCSVBytes ("a,b\n \n".toList) = .error (.fieldCount 1) := by decide
example : readCSVBytes ("\"a\",b\n".toList) = .ok [["a".toList, "b".toList]] := by decide

theorem star_cls_all {p : Char → Bool} :
    ∀ {r : Regex} {s : Str}, RMatch r s → r = .star (.cls p) → s.all p = true := by
  intro r s h
  induction h with
  | eps => intro hr; simp at hr
  | cls _ => intro hr; simp at hr
  | cat _ _ _ _ => intro hr; simp at hr
  | altL _ _ => intro hr; simp at hr
  | altR _ _ => intro hr; simp at hr
  | starNil => intro _; rfl
  | starCat h1 _ _ ih2 =>
    intro hr
    injection hr with ha
    subst ha
    cases h1 with
    | cls hc => simp [List.all_append, hc, ih2 rfl]

theorem all_star_cls {p : Char → Bool} :
    ∀ {s : Str}, s.all p = true → RMatch (.star (.cls p)) s := by
  intro s
  induction s with
  | nil => intro _; exact .starNil
  | cons c cs ih =>
    intro h
    rw [List.all_cons, Bool.and_eq_true] at h
    exact RMatch.starCat (.cls h.1) (ih h.2)

theorem segRest_iff {A B : Char → Bool} : ∀ {s : Str},
    segRest A B s = true ↔
      ∃ m d, s = m ++ [d] ∧ m.all B = true ∧ A d = true := by
  intro s
  induction s with
  | nil =>
    constructor
    · intro h; exact absurd h (by simp [segRest])
    · rintro ⟨m, d, hmd, -, -⟩
      exact absurd hmd.symm (by simp)
  | cons c cs ih =>
    cases cs with
    | nil =>
      constructor
      · intro h
        exact ⟨[], c, rfl, rfl, h⟩
      · rintro ⟨m, d, hmd, hB, hA⟩
        rcases m with - | ⟨x, xs⟩
        · simp at hmd
          rw [show segRest A B [c] = A c from rfl, hmd]
          exact hA
        · simp at hmd
    | cons e cs' =>
      rw [show segRest A B (c :: e :: cs') = (B c && segRest A B (e :: cs'))
        from rfl, Bool.and_eq_true, ih]
      constructor
      · rintro ⟨hBc, m, d, hm, hall, hA⟩
        exact ⟨c :: m, d, by rw [hm]; rfl, by simp [List.all_cons, hBc, hall], hA⟩
      · rintro ⟨m, d, hmd, hall, hA⟩
        rcases m with - | ⟨x, xs⟩
        · simp at hmd
        · simp only [List.cons_append, List.cons.injEq] at hmd
          obtain ⟨rfl, hmd2⟩ := hmd
          rw [List.all_cons, Bool.and_eq_true] at hall
          exact ⟨hall.1, xs, d, hmd2, hall.2, hA⟩

theorem seg_cons {A B : Char → Bool} (c : Char) (cs : Str) (h : cs ≠ []) :
    seg A B (c :: cs) = (A c && segRest A B cs) := by
  cases cs with
  | nil => exact absurd rfl h
  | cons e cs' => rfl

theorem rmatch_bounded_iff {A B : Char → Bool} {s : Str} :
    RMatch (boundedR A B) s ↔ seg A B s = true := by
  constructor
  · intro h
    cases h with
    | cat h1 h2 =>
      cases h1 with
      | cls hA =>
        cases h2 with
        | altL he =>
          cases he
          exact hA
        | altR hc =>
          cases hc with
          | cat hm hd =>
            cases hd with
            | cls hAd =>
              rename_i c m d
              have hall := star_cls_all hm rfl
              rw [show ([c] ++ (m ++ [d])) = c :: (m ++ [d]) from rfl,
                seg_cons c (m ++ [d]) (by simp), Bool.and_eq_true]
              exact ⟨hA, segRest_iff.mpr ⟨m, d, rfl, hall, hAd⟩⟩
  · intro h
    rcases s with - | ⟨c, cs⟩
    · exact absurd h (by simp [seg])
    rcases cs with - | ⟨e, cs'⟩
    · exact RMatch.cat (.cls h) (RMatch.altL .eps)
    · rw [seg_cons c (e :: cs') (by simp), Bool.and_eq_true] at h
      obtain ⟨m, d, hm, hall, hA⟩ := segRest_iff.mp h.2
      rw [show (c :: e :: cs') = [c] ++ (e :: cs') from rfl, hm]
      exact RMatch.cat (.cls h.1)
        (RMatch.altR (RMatch.cat (all_star_cls hall) (.cls hA)))

theorem rmatch_chr_iff {c : Char} {s : Str} : RMatch (chrR c) s ↔ s = [c] := by
  constructor
  · intro h
    cases h with
    | cls hc =>
      rename_i d
      rw [show d = c from by simpa using hc]
  · rintro rfl
    exact .cls (by simp)

theorem rmatch_cat_iff {a b : Regex} {s : Str} :
    RMatch (.cat a b) s ↔ ∃ u v, s = u ++ v ∧ RMatch a u ∧ RMatch b v := by
  constructor
  · intro h
    cases h with
    | cat h1 h2 => exact ⟨_, _, rfl, h1, h2⟩
  · rintro ⟨u, v, rfl, h1, h2⟩
    exact .cat h1 h2

theorem rmatch_alpha2plus_iff {s : Str} :
    RMatch alpha2plusR s ↔ (2 ≤ s.length ∧ s.all isAlphaCh = true) := by
  constructor
  · intro h
    cases h with
    | cat h1 h2 =>
      cases h1 with
      | cls hc =>
        cases h2 with
        | cat h3 h4 =>
          cases h3 with
          | cls hd =>
            have hall := star_cls_all h4 rfl
            constructor
            · simp
            · simp [List.all_append, List.all_cons, hc, hd, hall]
  · rintro ⟨hlen, hall⟩
    rcases s with - | ⟨c, - | ⟨d, rest⟩⟩
    · simp at hlen
    · simp at hlen
    · rw [List.all_cons, List.all_cons, Bool.and_eq_true, Bool.and_eq_true] at hall
      exact RMatch.cat (.cls hall.1)
        (RMatch.cat (.cls hall.2.1) (all_star_cls hall.2.2))

theorem tailAlpha_iff {s : Str} :
    tailAlpha s = true ↔ (2 ≤ s.length ∧ s.all isAlphaCh = true) := by
  rw [tailAlpha, Bool.and_eq_true, decide_eq_true_eq]

theorem take_append_len (u : Str) (c : Char) (v : Str) :
    (u ++ c :: v).take u.length = u := by
  induction u with
  | nil => rfl
  | cons x xs ih => simp [List.take_succ_cons, ih]

theorem getD_append_len (u : Str) (c : Char) (v : Str) (d : Char) :
    (u ++ c :: v).getD u.length d = c := by
  induction u with
  | nil => rfl
  | cons x xs ih => exact ih

theorem drop_append_len (u : Str) (c : Char) (v : Str) :
    (u ++ c :: v).drop (u.length + 1) = v := by
  induction u with
  | nil => rfl
  | cons x xs ih => exact ih

theorem take_getD_drop (d : Char) : ∀ (i : Nat) (s : Str), i < s.length →
    s.take i ++ s.getD i d :: s.drop (i + 1) = s
  | 0, [], h => absurd h (by simp)
  | 0, _ :: _, _ => by simp
  | i + 1, [], h => absurd h (by simp)
  | i + 1, a :: s, h => by
    have ih := take_getD_drop d i s (Nat.lt_of_succ_lt_succ h)
    show a :: (s.take i ++ s.getD i d :: s.drop (i + 1)) = a :: s
    rw [ih]

theorem splitScan_iff (c : Char) (P Q : Str → Bool) (s : Str) :
    splitScan c P Q s = true ↔
      ∃ u v, s = u ++ c :: v ∧ P u = true ∧ Q v = true := by
  rw [splitScan, List.any_eq_true]
  constructor
  · rintro ⟨i, hmem, hi⟩
    rw [List.mem_range] at hmem
    rw [Bool.and_eq_true, Bool.and_eq_true, beq_iff_eq] at hi
    obtain ⟨⟨hc, hP⟩, hQ⟩ := hi
    refine ⟨s.take i, s.drop (i + 1), ?_, hP, hQ⟩
    rw [← hc]
    exact (take_getD_drop ' ' i s hmem).symm
  · rintro ⟨u, v, rfl, hP, hQ⟩
    refine ⟨u.length, ?_, ?_⟩
    · rw [List.mem_range, List.length_append, List.length_cons]
      omega
    · rw [Bool.and_eq_true, Bool.and_eq_true, beq_iff_eq]
      refine ⟨⟨getD_append_len u c v ' ', ?_⟩, ?_⟩
      · rw [take_append_len]; exact hP
      · rw [drop_append_len]; exact hQ

theorem domainMatch_iff {w : Str} :
    domainMatch w = true ↔
      ∃ p sfx, w = p ++ '.' :: sfx ∧
        seg isAlnumCh isDomCh p = true ∧ tailAlpha sfx = true :=
  splitScan_iff '.' _ _ w

theorem emailCore_iff {s : Str} : emailCore s = true ↔ RMatch emailRegex s := by
  rw [show emailCore s = splitScan '@' (seg isAlnumCh isLocalCh) domainMatch s
    from rfl, splitScan_iff]
  constructor
  · rintro ⟨u, v, rfl, hu, hv⟩
    obtain ⟨p, sfx, rfl, hp, hsfx⟩ := domainMatch_iff.mp hv
    rw [tailAlpha_iff] at hsfx
    exact RMatch.cat (rmatch_bounded_iff.mpr hu)
      (RMatch.cat (rmatch_chr_iff.mpr rfl)
        (RMatch.cat (rmatch_bounded_iff.mpr hp)
          (RMatch.cat (rmatch_chr_iff.mpr rfl)
            (rmatch_alpha2plus_iff.mpr hsfx))))
  · intro h
    obtain ⟨u, v, hs, h1, h2⟩ := rmatch_cat_iff.mp h
    obtain ⟨a2, v2, hv, hat, h3⟩ := rmatch_cat_iff.mp h2
    rw [rmatch_chr_iff] at hat
    obtain ⟨p, v3, hv2, hp, h4⟩ := rmatch_cat_iff.mp h3
    obtain ⟨dt, sfx, hv3, hdot, h5⟩ := rmatch_cat_iff.mp h4
    rw [rmatch_chr_iff] at hdot
    subst hs hv hv2 hv3 hat hdot
    refine ⟨u, p ++ '.' :: sfx, rfl, rmatch_bounded_iff.mp h1, ?_⟩
    rw [domainMatch_iff]
    exact ⟨p, sfx, rfl, rmatch_bounded_iff.mp hp,
      tailAlpha_iff.mpr (rmatch_alpha2plus_iff.mp h5)⟩

theorem seg_all {A B : Char → Bool} (hAB : ∀ x, A x = true → B x = true) :
    ∀ {u : Str}, seg A B u = true → u.all B = true := by
  intro u hu
  rcases u with - | ⟨c, - | ⟨e, cs'⟩⟩
  · exact absurd hu (by simp [seg])
  · rw [List.all_cons]
    simp [hAB c hu]
  · rw [seg_cons c (e :: cs') (by simp), Bool.and_eq_true] at hu
    obtain ⟨m, d, hm, hall, hA⟩ := segRest_iff.mp hu.2
    rw [List.all_cons, hm, Bool.and_eq_true]
    refine ⟨hAB c hu.1, ?_⟩
    rw [List.all_append]
    simp [hall, List.all_cons, hAB d hA]

theorem not_mem_of_all_class {p : Char → Bool} {l : Str} {a : Char}
    (h : l.all p = true) (ha : p a = false) : a ∉ l := by
  intro hm
  rw [List.all_eq_true] at h
  rw [h a hm] at ha
  exact Bool.noConfusion ha

theorem emailCore_count_at {s : Str} (h : emailCore s = true) :
    s.count '@' = 1 := by
  obtain ⟨u, v, rfl, hu, hv⟩ :=
    (splitScan_iff '@' (seg isAlnumCh isLocalCh) domainMatch s).mp h
  obtain ⟨p, sfx, rfl, hp, hsfx⟩ := domainMatch_iff.mp hv
  rw [tailAlpha_iff] at hsfx
  have hu' : u.all isLocalCh = true :=
    seg_all (fun x hx => by simp [isLocalCh, hx]) hu
  have hp' : p.all isDomCh = true :=
    seg_all (fun x hx => by simp [isDomCh, hx]) hp
  have h1 : ('@') ∉ u := not_mem_of_all_class hu' (by decide)
  have h2 : ('@') ∉ p := not_mem_of_all_class hp' (by decide)
  have h3 : ('@') ∉ sfx := not_mem_of_all_class hsfx.2 (by decide)
  rw [List.count_append, List.count_cons, List.count_append, List.count_cons]
  rw [List.count_eq_zero.mpr h1, List.count_eq_zero.mpr h2,
    List.count_eq_zero.mpr h3]
  decide

theorem processRowsAux_pos (rows : List (List Str)) : ∀ n : Nat,
    processRowsAux rows (n + 1) =
      (rows.filter (fun r => !isBlankRow r)).map
        (fun r => r ++ [boolStr (HasValidEmail r)]) := by
  induction rows with
  | nil => intro n; rfl
  | cons r rs ih =>
    intro n
    by_cases hb : isBlankRow r
    · simp [processRowsAux, hb, List.filter_cons, ih n]
    · simp [processRowsAux, hb, List.filter_cons, ih (n + 1)]

theorem processRows_eq_spec (rows : List (List Str)) :
    processRows rows = specRowTransform rows := by
  rw [processRows, specRowTransform]
  induction rows with
  | nil => rfl
  | cons r rs ih =>
    by_cases hb : isBlankRow r
    · rw [show processRowsAux (r :: rs) 0 = processRowsAux rs 0 from
          by simp [processRowsAux, hb],
        show (r :: rs).filter (fun x => !isBlankRow x) =
            rs.filter (fun x => !isBlankRow x) from
          by simp [List.filter_cons, hb]]
      exact ih
    · rw [show processRowsAux (r :: rs) 0 =
            (r ++ [hasEmailHeader]) :: processRowsAux rs 1 from
          by simp [processRowsAux, hb],
        show (r :: rs).filter (fun x => !isBlankRow x) =
            r :: rs.filter (fun x => !isBlankRow x) from
          by simp [List.filter_cons, hb],
        processRowsAux_pos rs 0]

theorem processCSVRecordsAux_ok : ∀ (rs : List (List Str)) (n : Nat)
    (fpr : Option Nat) (out : List (List Str)),
    ProcessCSVRecordsAux rs n fpr = .ok out → out = processRowsAux rs n := by
  intro rs
  induction rs with
  | nil =>
    intro n fpr out h
    rw [ProcessCSVRecordsAux] at h
    injection h with h
    rw [← h]
    rfl
  | cons r rs ih =>
    intro n fpr out h
    rw [ProcessCSVRecordsAux] at h
    by_cases hw : r.length = fpr.getD r.length
    · rw [if_pos hw] at h
      by_cases hb : isBlankRow r
      · rw [if_pos hb] at h
        rw [processRowsAux, if_pos hb]
        exact ih n _ out h
      · rw [if_neg hb] at h
        rw [processRowsAux, if_neg hb]
        by_cases hn : n = 0
        · subst hn
          rw [if_pos rfl] at h
          rw [if_pos rfl]
          cases hrec : ProcessCSVRecordsAux rs 1 (some (fpr.getD r.length)) with
          | error e => rw [hrec] at h; exact absurd h (by simp [Except.map])
          | ok o =>
            rw [hrec] at h
            simp only [Except.map] at h
            injection h with h
            rw [← h, ← ih 1 _ o hrec]
        · rw [if_neg hn] at h
          rw [if_neg hn]
          cases hrec : ProcessCSVRecordsAux rs (n + 1) (some (fpr.getD r.length)) with
          | error e => rw [hrec] at h; exact absurd h (by simp [Except.map])
          | ok o =>
            rw [hrec] at h
            simp only [Except.map] at h
            injection h with h
            rw [← h, ← ih (n + 1) _ o hrec]
    · rw [if_neg hw] at h
      exact absurd h (by simp)

theorem processCSVRecordsAux_uniform : ∀ (rs : List (List Str)) (n w : Nat),
    (∀ r ∈ rs, r.length = w) →
    ProcessCSVRecordsAux rs n (some w) = .ok (processRowsAux rs n) := by
  intro rs
  induction rs with
  | nil => intro n w _; rfl
  | cons r rs ih =>
    intro n w hall
    have hr : r.length = w := hall r (List.mem_cons_self r rs)
    have hrs : ∀ x ∈ rs, x.length = w :=
      fun x hx => hall x (List.mem_cons_of_mem r hx)
    rw [ProcessCSVRecordsAux, processRowsAux]
    simp only [Option.getD_some]
    rw [if_pos hr]
    by_cases hb : isBlankRow r
    · rw [if_pos hb, if_pos hb]
      exact ih n w hrs
    · rw [if_neg hb, if_neg hb]
      by_cases hn : n = 0
      · subst hn
        rw [if_pos rfl, if_pos rfl, ih 1 w hrs]
        rfl
      · rw [if_neg hn, if_neg hn, ih (n + 1) w hrs]
        rfl

theorem processCSVRecordsAux_err : ∀ (rs : List (List Str)) (n w : Nat),
    (∃ r ∈ rs, r.length ≠ w) →
    ∃ k, ProcessCSVRecordsAux rs n (some w) = .error (.fieldCount k) := by
  intro rs
  induction rs with
  | nil => intro n w h; simp at h
  | cons r rs ih =>
    intro n w h
    rw [ProcessCSVRecordsAux]
    simp only [Option.getD_some]
    by_cases hr : r.length = w
    · have hrest : ∃ x ∈ rs, x.length ≠ w := by
        obtain ⟨x, hx, hne⟩ := h
        rcases List.mem_cons.mp hx with rfl | hx'
        · exact absurd hr hne
        · exact ⟨x, hx', hne⟩
      rw [if_pos hr]
      by_cases hb : isBlankRow r
      · rw [if_pos hb]
        exact ih n w hrest
      · rw [if_neg hb]
        by_cases hn : n = 0
        · subst hn
          rw [if_pos rfl]
          obtain ⟨k, hk⟩ := ih 1 w hrest
          exact ⟨k, by rw [hk]; rfl⟩
        · rw [if_neg hn]
          obtain ⟨k, hk⟩ := ih (n + 1) w hrest
          exact ⟨k, by rw [hk]; rfl⟩
    · rw [if_neg hr]
      exact ⟨n, rfl⟩

theorem lookupJob_cons (q : Str × ProcessingJob) (l : JobMap) (id : Str) :
    lookupJob (q :: l) id = if q.1 == id then some q.2 else lookupJob l id := by
  cases hq : (q.1 == id) with
  | true => simp [lookupJob, List.find?, hq]
  | false => simp [lookupJob, List.find?, hq]

theorem lookupJob_map_update (m : JobMap) (id : Str)
    (f : ProcessingJob → ProcessingJob) :
    lookupJob (m.map (fun p => if p.1 == id then (p.1, f p.2) else p)) id =
      (lookupJob m id).map f := by
  induction m with
  | nil => rfl
  | cons p ps ih =>
    by_cases hp : (p.1 == id) = true
    · simp only [List.map_cons, if_pos hp, lookupJob_cons]
      simp [hp]
    · simp only [List.map_cons, if_neg hp, lookupJob_cons]
      rw [Bool.not_eq_true] at hp
      simp [hp]
      simpa using ih

theorem lookupJob_map_update_ne (m : JobMap) (id id2 : Str)
    (f : ProcessingJob → ProcessingJob) (hne : id2 ≠ id) :
    lookupJob (m.map (fun p => if p.1 == id then (p.1, f p.2) else p)) id2 =
      lookupJob m id2 := by
  induction m with
  | nil => rfl
  | cons p ps ih =>
    by_cases hp : (p.1 == id) = true
    · have hp2 : (p.1 == id2) = false := by
        rw [beq_iff_eq] at hp
        rw [beq_eq_false_iff_ne, hp]
        exact fun hc => hne hc.symm
      simp only [List.map_cons, if_pos hp, lookupJob_cons]
      simp [hp2]
      simpa using ih
    · simp only [List.map_cons, if_neg hp, lookupJob_cons]
      by_cases hp2 : (p.1 == id2) = true
      · simp [hp2]
      · rw [Bool.not_eq_true] at hp2
        simp [hp2]
        simpa using ih

theorem lookupJob_updateJobStatus {m : JobMap} {id : Str} {j : ProcessingJob}
    (st : JobStatus) (fp em : Str) (h : lookupJob m id = some j) :
    lookupJob (UpdateJobStatus m id st fp em) id =
      some (applyUpdate j st fp em) := by
  rw [UpdateJobStatus, if_pos (by rw [h]; rfl)]
  rw [lookupJob_map_update m id (fun x => applyUpdate x st fp em), h]
  rfl

theorem processCSVRecordsAux_none (r : List Str) (rs : List (List Str))
    (n : Nat) :
    ProcessCSVRecordsAux (r :: rs) n none =
      ProcessCSVRecordsAux (r :: rs) n (some r.length) := rfl

theorem isEmpty_false_of_ne_nil {l : Str} (h : l ≠ []) : l.isEmpty = false := by
  cases l with
  | nil => exact absurd rfl h
  | cons a t => rfl

theorem count_dropWhile_eq {p : Char → Bool} {c : Char} (hc : p c = false)
    (l : Str) : (l.dropWhile p).count c = l.count c := by
  conv_rhs => rw [← List.takeWhile_append_dropWhile (p := p) (l := l)]
  rw [List.count_append,
    show (l.takeWhile p).count c = 0 from by
      rw [List.count_eq_zero]
      intro hm
      rw [List.mem_takeWhile_imp hm] at hc
      exact Bool.noConfusion hc,
    Nat.zero_add]

theorem count_trimSpace {c : Char} (hc : goIsSpace c = false) (s : Str) :
    (trimSpace s).count c = s.count c := by
  rw [trimSpace, List.count_reverse, count_dropWhile_eq hc,
    List.count_reverse, count_dropWhile_eq hc]

/-- Claim C1: on any sequence of parsed rows the loop of ProcessCSV writes
exactly the non-blank rows in source order, the first with the literal
has_email column appended and every later one with the textual detection
result appended; the output row count is the non-blank row count; a successful
run of the full loop with the field-count check produces the same rows; and the
detection result holds exactly when some field of the row is a valid email. -/
theorem C1_rowTransform_spec :
    (∀ rows : List (List Str), processRows rows = specRowTransform rows) ∧
    (∀ rows : List (List Str), (processRows rows).length =
      (rows.filter (fun r => !isBlankRow r)).length) ∧
    (∀ (recs out : List (List Str)),
      ProcessCSVRecords recs = .ok out → out = processRows recs) ∧
    (∀ r : List Str, HasValidEmail r = true ↔ ∃ f ∈ r, IsValidEmail f = true) := by
  refine ⟨processRows_eq_spec, ?_, ?_, ?_⟩
  · intro rows
    rw [processRows_eq_spec, specRowTransform]
    cases hf : rows.filter (fun r => !isBlankRow r) with
    | nil => rfl
    | cons h ds => simp
  · intro recs out h
    exact processCSVRecordsAux_ok recs 0 none out h
  · intro r
    rw [HasValidEmail, List.any_eq_true]

/-- Witness for C1: the ok-case clause instantiated on a one-row input. -/
theorem C1_rowTransform_spec_witness :
    [["a".toList, hasEmailHeader]] = processRows [["a".toList]] :=
  C1_rowTransform_spec.2.2.1 [["a".toList]] [["a".toList, hasEmailHeader]]
    (by decide)

/-- Claim C2: IsValidEmail rejects input that trims to the empty string and
otherwise accepts exactly when the whole trimmed string matches the compiled
email pattern; in particular consecutive interior dots in the local part are
accepted, a string without exactly one at sign is rejected, and every match
ends in a dot followed by at least two letters. -/
theorem C2_isValidEmail_spec :
    (∀ s : Str, IsValidEmail s = true ↔
      (trimSpace s ≠ [] ∧ RMatch emailRegex (trimSpace s))) ∧
    IsValidEmail ("a..b@example.com".toList) = true ∧
    (∀ s : Str, s.count '@' ≠ 1 → IsValidEmail s = false) ∧
    (∀ s : Str, RMatch emailRegex s →
      ∃ q sfx, s = q ++ '.' :: sfx ∧ sfx.all isAlphaCh = true ∧
        2 ≤ sfx.length) := by
  have hval : ∀ s : Str, IsValidEmail s = true ↔
      (trimSpace s ≠ [] ∧ RMatch emailRegex (trimSpace s)) := by
    intro s
    by_cases he : trimSpace s = []
    · simp [IsValidEmail, he]
    · simp [IsValidEmail, isEmpty_false_of_ne_nil he, he, emailCore_iff]
  refine ⟨hval, by decide, ?_, ?_⟩
  · intro s hcount
    by_contra hv
    rw [Bool.not_eq_false] at hv
    have hcore : emailCore (trimSpace s) = true := by
      rcases (hval s).mp hv with ⟨hne, hm⟩
      rw [emailCore_iff]
      exact hm
    rw [← count_trimSpace (show goIsSpace '@' = false from by decide) s] at hcount
    exact hcount (emailCore_count_at hcore)
  · intro s h
    obtain ⟨u, v, hs, h1, h2⟩ := rmatch_cat_iff.mp h
    obtain ⟨a2, v2, hv, hat, h3⟩ := rmatch_cat_iff.mp h2
    rw [rmatch_chr_iff] at hat
    obtain ⟨p, v3, hv2, hp, h4⟩ := rmatch_cat_iff.mp h3
    obtain ⟨dt, sfx, hv3, hdot, h5⟩ := rmatch_cat_iff.mp h4
    rw [rmatch_chr_iff] at hdot
    rw [rmatch_alpha2plus_iff] at h5
    subst hs hv hv2 hv3 hat hdot
    exact ⟨u ++ '@' :: p, sfx, by simp, h5.2, h5.1⟩

/-- Witness for C2: the at-count clause applied at a concrete two-at input. -/
theorem C2_isValidEmail_spec_witness :
    IsValidEmail ("test@@example.com".toList) = false :=
  C2_isValidEmail_spec.2.2.1 ("test@@example.com".toList) (by decide)

/-- Claim C3: UpdateJobStatus on an absent id changes nothing; on a present id
it rewrites exactly that record, setting status unconditionally and the
location and error fields only when the supplied values are nonempty, leaves
every other record alone and never changes the registry size. -/
theorem C3_updateJobStatus_spec :
    ∀ (m : JobMap) (id : Str) (st : JobStatus) (fp em : Str),
    (lookupJob m id = none → UpdateJobStatus m id st fp em = m) ∧
    ((UpdateJobStatus m id st fp em).length = m.length) ∧
    (∀ j, lookupJob m id = some j →
      lookupJob (UpdateJobStatus m id st fp em) id =
        some (applyUpdate j st fp em)) ∧
    (∀ id2, id2 ≠ id →
      lookupJob (UpdateJobStatus m id st fp em) id2 = lookupJob m id2) ∧
    (∀ j, (applyUpdate j st fp em).status = st ∧
      (fp = [] → (applyUpdate j st fp em).filePath = j.filePath) ∧
      (fp ≠ [] → (applyUpdate j st fp em).filePath = fp) ∧
      (em = [] → (applyUpdate j st fp em).error = j.error) ∧
      (em ≠ [] → (applyUpdate j st fp em).error = em) ∧
      (applyUpdate j st fp em).id = j.id ∧
      (applyUpdate j st fp em).createdAt = j.createdAt) := by
  intro m id st fp em
  refine ⟨?_, ?_, ?_, ?_, ?_⟩
  · intro hnone
    rw [UpdateJobStatus, if_neg (by rw [hnone]; simp)]
  · rw [UpdateJobStatus]
    by_cases hs : (lookupJob m id).isSome = true
    · rw [if_pos hs, List.length_map]
    · rw [if_neg hs]
  · intro j hj
    exact lookupJob_updateJobStatus st fp em hj
  · intro id2 hne
    rw [UpdateJobStatus]
    by_cases hs : (lookupJob m id).isSome = true
    · rw [if_pos hs]
      exact lookupJob_map_update_ne m id id2
        (fun x => applyUpdate x st fp em) hne
    · rw [if_neg hs]
  · intro j
    refine ⟨rfl, ?_, ?_, ?_, ?_, rfl, rfl⟩
    · intro h; simp [applyUpdate, h]
    · intro h; simp [applyUpdate, isEmpty_false_of_ne_nil h]
    · intro h; simp [applyUpdate, h]
    · intro h; simp [applyUpdate, isEmpty_false_of_ne_nil h]

/-- Witness for C3: the present-id clause applied to a concrete one-job
registry. -/
theorem C3_updateJobStatus_spec_witness :
    lookupJob
      (UpdateJobStatus [("a".toList, newJob ("a".toList) 0)] ("a".toList)
        .completed ("o".toList) []) ("a".toList) =
      some (applyUpdate (newJob ("a".toList) 0) .completed ("o".toList) []) :=
  (C3_updateJobStatus_spec [("a".toList, newJob ("a".toList) 0)] ("a".toList)
    .completed ("o".toList) []).2.2.1 (newJob ("a".toList) 0) (by decide)

/-- Claim C4: every record reachable by the create-then-one-terminal-update
lifecycle never carries a nonempty output location and a nonempty error
message at once, and carries neither while still processing. -/
theorem C4_jobRecord_invariant :
    ∀ (id : Str) (j : ProcessingJob), WorkerReachable id j →
      (¬(j.filePath ≠ [] ∧ j.error ≠ [])) ∧
      (j.status = .processing → j.filePath = [] ∧ j.error = []) := by
  intro id j h
  induction h with
  | created now => exact ⟨fun hc => hc.1 rfl, fun _ => ⟨rfl, rfl⟩⟩
  | saveFailed j emsg hr hst ih =>
    have hempty := ih.2 hst
    constructor
    · intro hc
      exact hc.1 (by simp [applyUpdate, hempty.1])
    · intro hst'
      simp [applyUpdate] at hst'
  | csvFailed j e hr hst ih =>
    have hempty := ih.2 hst
    constructor
    · intro hc
      exact hc.1 (by simp [applyUpdate, hempty.1])
    · intro hst'
      simp [applyUpdate] at hst'
  | completedStep j hr hst ih =>
    have hempty := ih.2 hst
    constructor
    · intro hc
      exact hc.2 (by simp [applyUpdate, hempty.2])
    · intro hst'
      simp [applyUpdate] at hst'

/-- Witness for C4: the invariant at a freshly created record. -/
theorem C4_jobRecord_invariant_witness :
    (¬((newJob ("a".toList) 0).filePath ≠ [] ∧
        (newJob ("a".toList) 0).error ≠ [])) ∧
    ((newJob ("a".toList) 0).status = .processing →
      (newJob ("a".toList) 0).filePath = [] ∧
        (newJob ("a".toList) 0).error = []) :=
  C4_jobRecord_invariant ("a".toList) (newJob ("a".toList) 0)
    (WorkerReachable.created 0)

/-- Claim C5 counterexample: a row whose only field is whitespace is not
dropped when the header row has two columns — the reader's field-count check
makes the transformation fail instead, both at record level and on the raw
bytes of the file. -/
theorem C5_blankRow_cex :
    ProcessCSVRecords [["a".toList, "b".toList], [" ".toList]] =
      .error (.fieldCount 1) ∧
    ProcessCSVBytes ("a,b\n \n".toList) = .error (.fieldCount 1) :=
  ⟨by decide, by decide⟩

/-- Claim C5 as amended: every blank row among the delivered records is
dropped entirely (not written, no has_email value, not counted); whenever all
records carry one common field count — in particular a whitespace-only row in
a one-column file — the transformation succeeds with exactly the blank rows
dropped; but a whitespace-only row under a header with a different column
count makes the transformation fail. -/
theorem C5_blankRow_amended :
    (∀ rows : List (List Str),
      processRows rows = processRows (rows.filter (fun r => !isBlankRow r))) ∧
    (∀ (rows : List (List Str)) (k : Nat), (∀ r ∈ rows, r.length = k) →
      ProcessCSVRecords rows = .ok (processRows rows)) ∧
    (ProcessCSVRecords [["h".toList], [" ".toList], ["x".toList]] =
      .ok [["h".toList, hasEmailHeader],
           ["x".toList, boolStr (HasValidEmail ["x".toList])]]) := by
  refine ⟨?_, ?_, by decide⟩
  · have hfilt : ∀ rows : List (List Str),
        (rows.filter (fun r => !isBlankRow r)).filter
            (fun r => !isBlankRow r) =
          rows.filter (fun r => !isBlankRow r) :=
      fun rows => List.filter_eq_self.mpr (fun a ha => (List.mem_filter.mp ha).2)
    intro rows
    rw [processRows_eq_spec, processRows_eq_spec, specRowTransform,
      specRowTransform, hfilt]
  · intro rows k hall
    rcases rows with - | ⟨r, rs⟩
    · rfl
    have hrs : ∀ x ∈ r :: rs, x.length = r.length := fun x hx => by
      rw [hall x hx, ← hall r (List.mem_cons_self r rs)]
    rw [ProcessCSVRecords, processCSVRecordsAux_none,
      processCSVRecordsAux_uniform (r :: rs) 0 r.length hrs]
    rfl

/-- Witness for C5's amended claim: the uniform-width clause on a concrete
one-row input. -/
theorem C5_blankRow_amended_witness :
    ProcessCSVRecords [["q".toList]] = .ok (processRows [["q".toList]]) :=
  C5_blankRow_amended.2.1 [["q".toList]] 1 (by decide)

/-- Claim C6: a zero-byte input produces a zero-byte output with no header
synthesized; an input holding only a (non-blank) header row produces only that
row with the has_email column appended, shown both record-wise for every
header and byte-wise on a concrete file. -/
theorem C6_boundary :
    ProcessCSVBytes [] = .ok [] ∧
    (∀ h : List Str, isBlankRow h = false →
      ProcessCSVRecords [h] = .ok [h ++ [hasEmailHeader]]) ∧
    ProcessCSVBytes ("name,email".toList) =
      .ok ("name,email,has_email\n".toList) := by
  refine ⟨by decide, ?_, by decide⟩
  intro h hb
  rw [ProcessCSVRecords, processCSVRecordsAux_none,
    processCSVRecordsAux_uniform [h] 0 h.length
      (fun x hx => by rw [List.mem_singleton.mp hx])]
  simp [processRowsAux, hb]

/-- Witness for C6: the header-only clause at a concrete header. -/
theorem C6_boundary_witness :
    ProcessCSVRecords [["z".toList]] = .ok [["z".toList] ++ [hasEmailHeader]] :=
  C6_boundary.2.1 ["z".toList] (by decide)

/-- Claim C7: the byte-level transformation is a pure function of the input
content alone — two runs on the same content agree, and in particular two
successful runs write byte-identical outputs. -/
theorem C7_deterministic :
    (∀ input : Str, ProcessCSVBytes input = ProcessCSVBytes input) ∧
    (∀ (input out1 out2 : Str), ProcessCSVBytes input = .ok out1 →
      ProcessCSVBytes input = .ok out2 → out1 = out2) := by
  refine ⟨fun _ => rfl, ?_⟩
  intro input out1 out2 h1 h2
  rw [h1] at h2
  injection h2

/-- Witness for C7: two successful runs on a concrete input agree. -/
theorem C7_deterministic_witness :
    ("a,has_email\n".toList : Str) = ("a,has_email\n".toList : Str) :=
  C7_deterministic.2 ("a".toList) ("a,has_email\n".toList)
    ("a,has_email\n".toList) (by decide) (by decide)

/-- Claim C8 evidence: the intermediate record state after UpdateJobStatus has
assigned the status field but not yet the error field pairs a failed status
with an empty error message and equals neither the record before the update
nor the record after it, so a reader dereferencing the shared record during
the update observes a state the atomic-snapshot contract forbids. -/
theorem C8_torn_read :
    (updWriteStatus (newJob ("a".toList) 0) .failed).status = .failed ∧
    (updWriteStatus (newJob ("a".toList) 0) .failed).error = [] ∧
    updWriteStatus (newJob ("a".toList) 0) .failed ≠ newJob ("a".toList) 0 ∧
    updWriteStatus (newJob ("a".toList) 0) .failed ≠
      applyUpdate (newJob ("a".toList) 0) .failed [] ("boom".toList) := by
  refine ⟨rfl, rfl, ?_, ?_⟩
  · intro hc
    have := congrArg ProcessingJob.status hc
    simp [updWriteStatus, newJob] at this
  · intro hc
    have := congrArg ProcessingJob.error hc
    simp [updWriteStatus, newJob, applyUpdate] at this

/-- Claim C9: when the first delivered record has n fields and some later
record has a different field count, the loop of ProcessCSV fails with the
reader's field-count error — ragged rows are never padded, truncated or
skipped — and the background worker then marks the job failed with a nonempty
error message. -/
theorem C9_raggedRows_fail :
    ∀ (rows : List (List Str)) (m : JobMap) (id : Str) (j : ProcessingJob),
    rows ≠ [] → (∃ r ∈ rows, r.length ≠ (rows.headD []).length) →
    (∃ k, ProcessCSVRecords rows = .error (.fieldCount k)) ∧
    (lookupJob m id = some j →
      ∃ j', lookupJob (processFileAsync m id none rows) id = some j' ∧
        j'.status = .failed ∧ j'.error ≠ []) := by
  intro rows m id j hne hmis
  rcases rows with - | ⟨r, rs⟩
  · exact absurd rfl hne
  have hmis' : ∃ x ∈ rs, x.length ≠ r.length := by
    obtain ⟨x, hx, hxne⟩ := hmis
    rcases List.mem_cons.mp hx with rfl | hx'
    · simp at hxne
    · exact ⟨x, hx', by simpa using hxne⟩
  have herr : ∃ k, ProcessCSVRecords (r :: rs) = .error (.fieldCount k) := by
    rw [ProcessCSVRecords, processCSVRecordsAux_none, ProcessCSVRecordsAux]
    simp only [Option.getD_some, if_true]
    by_cases hb : isBlankRow r
    · rw [if_pos hb]
      exact processCSVRecordsAux_err rs 0 r.length hmis'
    · rw [if_neg hb]
      obtain ⟨k, hk⟩ := processCSVRecordsAux_err rs 1 r.length hmis'
      exact ⟨k, by rw [hk]; rfl⟩
  refine ⟨herr, ?_⟩
  intro hj
  obtain ⟨k, hk⟩ := herr
  have hrun : processFileAsync m id none (r :: rs) =
      UpdateJobStatus m id .failed []
        ("Failed to process CSV: ".toList ++ csvErrMsg (.fieldCount k)) := by
    rw [processFileAsync, hk]
  have hmsgne : ("Failed to process CSV: ".toList ++
      csvErrMsg (.fieldCount k)) ≠ [] := by
    intro hc
    rw [List.append_eq_nil] at hc
    exact absurd hc.1 (by decide)
  refine ⟨applyUpdate j .failed []
      ("Failed to process CSV: ".toList ++ csvErrMsg (.fieldCount k)),
    ?_, rfl, ?_⟩
  · rw [hrun]
    exact lookupJob_updateJobStatus .failed [] _ hj
  · rw [show (applyUpdate j .failed []
        ("Failed to process CSV: ".toList ++ csvErrMsg (.fieldCount k))).error =
        ("Failed to process CSV: ".toList ++ csvErrMsg (.fieldCount k)) from
      by simp [applyUpdate, isEmpty_false_of_ne_nil hmsgne]]
    exact hmsgne

/-- Witness for C9: a two-column header followed by a one-field row, with a
one-job registry. -/
theorem C9_raggedRows_fail_witness :
    (∃ k, ProcessCSVRecords [["a".toList, "b".toList], ["c".toList]] =
      .error (.fieldCount k)) ∧
    (∃ j', lookupJob
        (processFileAsync [("j".toList, newJob ("j".toList) 0)] ("j".toList)
          none [["a".toList, "b".toList], ["c".toList]]) ("j".toList) =
        some j' ∧ j'.status = .failed ∧ j'.error ≠ []) := by
  have h := C9_raggedRows_fail [["a".toList, "b".toList], ["c".toList]]
    [("j".toList, newJob ("j".toList) 0)] ("j".toList)
    (newJob ("j".toList) 0) (by decide) ⟨["c".toList], by decide, by decide⟩
  exact ⟨h.1, h.2 (by decide)⟩

/-- Claim C10: every written row is its source row with exactly one field
appended (parsed values preserved), while the output bytes are a re-encoding:
a carriage-return-newline input and an unnecessarily quoted input each parse
to records whose re-encoding differs byte-for-byte from the input, and a field
needing no quotes is written verbatim. -/
theorem C10_reencode :
    (∀ (rows : List (List Str)) (r : List Str), r ∈ processRows rows →
      ∃ r0, r0 ∈ rows ∧ isBlankRow r0 = false ∧
        (r = r0 ++ [hasEmailHeader] ∨
          r = r0 ++ [boolStr (HasValidEmail r0)])) ∧
    (readCSVBytes ("a,b\r\n1,2\r\n".toList) =
        .ok [["a".toList, "b".toList], ["1".toList, "2".toList]] ∧
      encodeCSV [["a".toList, "b".toList], ["1".toList, "2".toList]] ≠
        ("a,b\r\n1,2\r\n".toList)) ∧
    (readCSVBytes ("\"a\",b\n".toList) = .ok [["a".toList, "b".toList]] ∧
      encodeCSV [["a".toList, "b".toList]] ≠ ("\"a\",b\n".toList)) ∧
    (∀ f : Str, fieldNeedsQuotes f = false → encodeField f = f) := by
  refine ⟨?_, ⟨by decide, by decide⟩, ⟨by decide, by decide⟩, ?_⟩
  · intro rows r hr
    rw [processRows_eq_spec, specRowTransform] at hr
    cases hf : rows.filter (fun x => !isBlankRow x) with
    | nil => rw [hf] at hr; exact absurd hr (by simp)
    | cons h ds =>
      rw [hf] at hr
      have hmem : ∀ x, x ∈ h :: ds →
          x ∈ rows ∧ isBlankRow x = false := by
        intro x hx
        have : x ∈ rows.filter (fun y => !isBlankRow y) := by
          rw [hf]; exact hx
        have hx2 := List.mem_filter.mp this
        exact ⟨hx2.1, by simpa using hx2.2⟩
      rcases List.mem_cons.mp hr with rfl | hr'
      · obtain ⟨h1, h2⟩ := hmem h (List.mem_cons_self h ds)
        exact ⟨h, h1, h2, Or.inl rfl⟩
      · obtain ⟨r0, hr0, rfl⟩ := List.mem_map.mp hr'
        obtain ⟨h1, h2⟩ := hmem r0 (List.mem_cons_of_mem h hr0)
        exact ⟨r0, h1, h2, Or.inr rfl⟩
  · intro f h
    rw [encodeField, if_neg (by simp [h])]

/-- Witness for C10: the verbatim-field clause at a concrete field, and the
membership clause at a concrete one-row input. -/
theorem C10_reencode_witness :
    encodeField ("x".toList) = ("x".toList) :=
  C10_reencode.2.2.2 ("x".toList) (by decide)
